import Mathlib

/-!
# Verification of the resource-allocation / deadlock-detection engine

Shallow embedding of the engine of `deadlock_escape.py`: the classes
`Resource` (lines 39-55), `Process` (lines 58-84) and `GameState`
(lines 87-222).  Only the engine is embedded; the Tk presentation layer
(class `DeadlockEscapeGame`) has no algorithmic content and is out of scope.

Modelling conventions, justified against the source:

* Python dictionaries keyed by `ResourceType` are modelled as total functions
  `ResourceType → Nat`.  A key absent from a Python dict corresponds to the
  value `0`; this matches the source, which reads requirement/allocation maps
  exclusively through `.get(kind, 0)` (lines 74, 81) or iterates over the
  stored items, and no template stores an explicit `0` demand.
* All quantities (`total`, `available`, demands, allocation amounts) are
  non-negative integers in the data model (spec section 3); they are embedded
  as `Nat`.
* The random draws of `_generate_processes` (lines 133, 139) are passed in
  explicitly: `random.sample(templates, k)` is modelled as taking the first
  `k` elements of an arbitrary permutation `shuffled` of the template catalog,
  and the per-process, per-kind `random.randint(-1, 1)` draws as a function
  `vary : Nat → ResourceType → Int`.
* `_initialize_resources` (line 108) computes the difficulty multiplier in
  IEEE double precision; it is embedded in `ℚ`.  The truncated totals agree
  with the rational ones for every level: the multiplier takes the values
  1.1, 1.0, 0.9, 0.8, 0.7 (levels 1,2,3,4,≥5) and for each base in
  {4,4,3,2} the double product truncates to the same integer as the exact
  rational product (e.g. level 3: fl(4·fl(1.2−0.3)) = 3.5999…e0 and
  ⌊4·(9/10)⌋ = 3; level 2: fl(1.2−0.2) = 1.0 exactly).
-/

/-- `ResourceType` enum, lines 23-28. -/
inductive ResourceType : Type
  | CPU
  | MEMORIA
  | DISCO
  | IMPRESSORA
deriving DecidableEq, Repr

/-- The closed set of resource kinds (Python iterates `for rt in ResourceType`). -/
def ResourceType.all : List ResourceType :=
  [ResourceType.CPU, ResourceType.MEMORIA, ResourceType.DISCO, ResourceType.IMPRESSORA]

/-- The `.value` strings of the Python enum members. -/
def ResourceType.value : ResourceType → String
  | ResourceType.CPU => "CPU"
  | ResourceType.MEMORIA => "Memória"
  | ResourceType.DISCO => "Disco"
  | ResourceType.IMPRESSORA => "Impressora"

/-- `ProcessState` enum, lines 31-36. -/
inductive ProcessState : Type
  | WAITING
  | RUNNING
  | FINISHED
  | BLOCKED
deriving DecidableEq, Repr

/-- `Resource` dataclass, lines 39-44. -/
structure Resource where
  type : ResourceType
  total : Nat
  available : Nat

/-- `Resource.allocate`, lines 46-51.  The Python method mutates `self` and
returns a `bool`; it is embedded as returning `some` updated resource on
success and `none` on failure (no state change). -/
def Resource.allocate (r : Resource) (amount : Nat) : Option Resource :=
  if amount ≤ r.available then some { r with available := r.available - amount } else none

/-- `Resource.release`, lines 53-55: increment `available`, clamped at `total`. -/
def Resource.release (r : Resource) (amount : Nat) : Resource :=
  { r with available := min r.total (r.available + amount) }

/-- `Process` dataclass, lines 58-65. -/
structure Process where
  id : String
  name : String
  required_resources : ResourceType → Nat
  allocated_resources : ResourceType → Nat
  state : ProcessState

/-- `Process.is_satisfied`, lines 71-76: every required amount is covered by the
allocation.  The Python loop runs over `required_resources.items()`; extending
the conjunction to all kinds is equivalent because an absent key means demand
`0` and `0 ≤ allocated` always holds. -/
def Process.is_satisfied (p : Process) : Bool :=
  ResourceType.all.all fun rt => decide (p.required_resources rt ≤ p.allocated_resources rt)

/-- `Process.can_finish`, lines 78-84: the outstanding need
`required - allocated` is coverable by the hypothetical availability.
Python computes `still_needed` with signed subtraction; a negative
`still_needed` (over-allocation) makes the test pass there, exactly as the
truncated `Nat` subtraction does here. -/
def Process.can_finish (p : Process) (available_resources : ResourceType → Nat) : Bool :=
  ResourceType.all.all fun rt =>
    decide (p.required_resources rt - p.allocated_resources rt ≤ available_resources rt)

/-- The template catalog of `_generate_processes`, lines 122-131. -/
def processTemplates : List (String × (ResourceType → Nat)) :=
  [("Editor de Texto", fun rt => match rt with
      | ResourceType.CPU => 1 | ResourceType.MEMORIA => 2 | _ => 0),
   ("Compilador", fun rt => match rt with
      | ResourceType.CPU => 2 | ResourceType.MEMORIA => 1 | ResourceType.DISCO => 1 | _ => 0),
   ("Backup", fun rt => match rt with
      | ResourceType.DISCO => 2 | ResourceType.MEMORIA => 1 | _ => 0),
   ("Impressão", fun rt => match rt with
      | ResourceType.IMPRESSORA => 1 | ResourceType.MEMORIA => 1 | _ => 0),
   ("Antivírus", fun rt => match rt with
      | ResourceType.CPU => 1 | ResourceType.DISCO => 1 | ResourceType.MEMORIA => 1 | _ => 0),
   ("Navegador", fun rt => match rt with
      | ResourceType.CPU => 2 | ResourceType.MEMORIA => 3 | _ => 0),
   ("Streaming", fun rt => match rt with
      | ResourceType.CPU => 2 | ResourceType.MEMORIA => 2 | ResourceType.DISCO => 1 | _ => 0),
   ("Banco de Dados", fun rt => match rt with
      | ResourceType.CPU => 1 | ResourceType.MEMORIA => 2 | ResourceType.DISCO => 2 | _ => 0)]

/-- `base_amounts` of `_initialize_resources`, lines 100-105. -/
def base_amounts : ResourceType → Nat
  | ResourceType.CPU => 4
  | ResourceType.MEMORIA => 4
  | ResourceType.DISCO => 3
  | ResourceType.IMPRESSORA => 2

/-- `multiplier = max(0.7, 1.2 - (self.level * 0.1))`, line 108, scaled by 10
to stay in `Nat`: the numerator of the multiplier over the fixed denominator
10.  For `level > 12` the truncated subtraction gives `max 7 0 = 7`, which
agrees with the real formula (`1.2 - 0.1·level < 0 < 0.7`).  See the header
comment for the float-to-rational justification; the equality with the exact
rational multiplier is proved in `difficulty_multiplier_eq` below. -/
def difficulty_multiplier_num (level : Nat) : Nat :=
  max 7 (12 - level)

/-- `total = max(2, int(base_amount * multiplier))`, line 112.  `int()` on a
positive float truncates, i.e. takes the floor; `Nat` division by the
denominator 10 is exactly that floor (proved in `init_total_eq_floor`
below). -/
def init_total (level : Nat) (rt : ResourceType) : Nat :=
  max 2 (base_amounts rt * difficulty_multiplier_num level / 10)

/-- `GameState._initialize_resources`, lines 98-115: each kind gets
`Resource(rt, total, total)`. -/
def _initialize_resources (level : Nat) : ResourceType → Resource :=
  fun rt => { type := rt, total := init_total level rt, available := init_total level rt }

/-- The per-kind demand after variation, lines 137-140:
`variation = random.randint(-1, 1) if self.level > 2 else 0` and
`varied[rt] = max(1, amount + variation)`, applied to each key of the
template's requirement dict (absent keys stay absent, i.e. `0`). -/
def varied_requirements (level : Nat) (vary_i : ResourceType → Int)
    (req : ResourceType → Nat) : ResourceType → Nat :=
  fun rt =>
    if req rt = 0 then 0
    else (max 1 ((req rt : Int) + (if 2 < level then vary_i rt else 0))).toNat

/-- One generated process, lines 142-147: `id = "P{i+1}"`, allocations start at
`0` for every kind, state defaults to `WAITING`. -/
def mkProcess (level : Nat) (vary : Nat → ResourceType → Int)
    (it : Nat × (String × (ResourceType → Nat))) : Process :=
  { id := "P" ++ toString (it.1 + 1),
    name := it.2.1,
    required_resources := varied_requirements level (vary it.1) it.2.2,
    allocated_resources := fun _ => 0,
    state := ProcessState.WAITING }

/-- `GameState._generate_processes`, lines 117-149.
`process_count = min(2 + level, 6)`;
`random.sample(templates, min(process_count, len(templates)))` is modelled as
the first `min process_count shuffled.length` elements of a permutation
`shuffled` of the catalog. -/
def _generate_processes (level : Nat) (shuffled : List (String × (ResourceType → Nat)))
    (vary : Nat → ResourceType → Int) : List Process :=
  let process_count := min (2 + level) 6
  (shuffled.take (min process_count shuffled.length)).enum.map (mkProcess level vary)

/-- `GameState` fields, lines 90-96. -/
structure GameState where
  level : Nat
  resources : ResourceType → Resource
  processes : List Process
  game_log : List String
  moves : Nat
  max_moves : Nat

/-- `GameState.__init__`, lines 90-96: fresh resources and processes, empty
log, `moves = 0`, `max_moves = 20`. -/
def GameState.new (level : Nat) (shuffled : List (String × (ResourceType → Nat)))
    (vary : Nat → ResourceType → Int) : GameState :=
  { level := level,
    resources := _initialize_resources level,
    processes := _generate_processes level shuffled vary,
    game_log := [],
    moves := 0,
    max_moves := 20 }

/-- `GameState.get_available_resources`, lines 151-153 (a fresh dict built by a
comprehension; the detection algorithm mutates only this copy). -/
def GameState.get_available_resources (g : GameState) : ResourceType → Nat :=
  fun rt => (g.resources rt).available

/-- Adding a process's full allocation back into a working availability map,
lines 175-176. -/
def releaseAll (available : ResourceType → Nat) (p : Process) : ResourceType → Nat :=
  fun rt => available rt + p.allocated_resources rt

/-- One pass of the detection loop, lines 172-179: scan in list order, and for
the first process that `can_finish`, add its allocation to the working
availability and remove it; `none` when no process can finish. -/
def removeFirstFinishable (available : ResourceType → Nat) :
    List Process → Option ((ResourceType → Nat) × List Process)
  | [] => none
  | p :: ps =>
    if p.can_finish available then some (releaseAll available p, ps)
    else
      match removeFirstFinishable available ps with
      | none => none
      | some (av2, ps2) => some (av2, p :: ps2)

/-- The `while changed and unfinished_processes` loop, lines 168-179.  Each
successful pass removes exactly one process, so `fuel = length` passes reach
the fixpoint (proved below); the result is the final unresolved list. -/
def detectLoop : Nat → (ResourceType → Nat) → List Process → List Process
  | 0, _, ps => ps
  | Nat.succ fuel, available, ps =>
    match removeFirstFinishable available ps with
    | none => ps
    | some (av2, ps2) => detectLoop fuel av2 ps2

/-- The not-yet-finished processes, line 161. -/
def GameState.unfinished (g : GameState) : List Process :=
  g.processes.filter fun p => decide (p.state ≠ ProcessState.FINISHED)

/-- `GameState.detect_deadlock`, lines 155-182: early `False` when nothing is
unfinished (line 163-164), otherwise run the reduction loop on a scratch copy
of availability and report deadlock iff processes remain. -/
def GameState.detect_deadlock (g : GameState) : Bool :=
  let unfinished := g.unfinished
  if unfinished.isEmpty then false
  else decide (0 < (detectLoop unfinished.length g.get_available_resources unfinished).length)

/-- The audit string of line 199: `"Alocado {amount} {kind} para {pid}"`. -/
def allocMsg (amount : Nat) (rt : ResourceType) (pid : String) : String :=
  "Alocado " ++ toString amount ++ " " ++ rt.value ++ " para " ++ pid

/-- The audit string of line 214: `"Processo {id} ({name}) finalizado!"`. -/
def finishMsg (p : Process) : String :=
  "Processo " ++ p.id ++ " (" ++ p.name ++ ") finalizado!"

/-- In-place mutation of the process found by id (Python mutates the object
returned by `next(...)`, line 186, which is the first list element with that
id): replace the first matching element. -/
def updateFirst (ps : List Process) (pid : String) (f : Process → Process) : List Process :=
  match ps with
  | [] => []
  | p :: rest => if p.id == pid then f p :: rest else p :: updateFirst rest pid f

/-- `process.allocated_resources[resource_type] += amount`, line 192. -/
def allocBump (p : Process) (rt : ResourceType) (amount : Nat) : Process :=
  { p with allocated_resources :=
      fun r => if r = rt then p.allocated_resources r + amount else p.allocated_resources r }

/-- The process part of `_finish_process`, lines 206 and 212: state becomes
`FINISHED` and every allocation is zeroed. -/
def finishProcess (p : Process) : Process :=
  { p with state := ProcessState.FINISHED, allocated_resources := fun _ => 0 }

/-- The pool part of `_finish_process`, lines 209-211: every kind with a
positive allocation is released back (with `release`'s clamp). -/
def finishResources (resources : ResourceType → Resource) (p : Process) :
    ResourceType → Resource :=
  fun r =>
    if 0 < p.allocated_resources r then (resources r).release (p.allocated_resources r)
    else resources r

/-- `GameState.allocate_resource`, lines 184-202 (with `_finish_process`,
lines 204-214, inlined at the call on line 197).  The Python method mutates
`self` and returns a `bool`; it is embedded as returning the new state paired
with the result.  Failure paths return the state unchanged.  Note the source
appends the finish log entry (line 214) before the allocation entry
(line 199). -/
def GameState.allocate_resource (g : GameState) (process_id : String)
    (resource_type : ResourceType) (amount : Nat) : GameState × Bool :=
  match g.processes.find? (fun p => p.id == process_id) with
  | none => (g, false)
  | some p =>
    if p.state = ProcessState.FINISHED then (g, false)
    else
      match (g.resources resource_type).allocate amount with
      | none => (g, false)
      | some r1 =>
        let res1 : ResourceType → Resource :=
          fun r => if r = resource_type then r1 else g.resources r
        let p1 := allocBump p resource_type amount
        if p1.is_satisfied then
          let p2 := finishProcess p1
          ({ g with
              processes := updateFirst g.processes process_id (fun _ => p2),
              resources := finishResources res1 p1,
              moves := g.moves + 1,
              game_log := g.game_log ++
                [finishMsg p1, allocMsg amount resource_type process_id] }, true)
        else
          ({ g with
              processes := updateFirst g.processes process_id (fun _ => p1),
              resources := res1,
              moves := g.moves + 1,
              game_log := g.game_log ++ [allocMsg amount resource_type process_id] }, true)

/-- `GameState.is_level_complete`, lines 216-218. -/
def GameState.is_level_complete (g : GameState) : Bool :=
  g.processes.all fun p => decide (p.state = ProcessState.FINISHED)

/-- `GameState.is_game_over`, lines 220-222. -/
def GameState.is_game_over (g : GameState) : Bool :=
  g.detect_deadlock || decide (g.max_moves ≤ g.moves)

/-- Spec-side notion for the detection-soundness claim (spec sections 4.4 and
8): an explicit ordering in which each process in turn can finish with the
current availability, each finished process returning its full allocation to
the working pool before the next is checked. -/
def seqFinishes (available : ResourceType → Nat) : List Process → Bool
  | [] => true
  | p :: ps => p.can_finish available && seqFinishes (releaseAll available p) ps

/-- The `random.randint(-1, 1)` draws, line 139: every offset lies in
`{-1, 0, 1}`. -/
def ValidVary (vary : Nat → ResourceType → Int) : Prop :=
  ∀ i rt, -1 ≤ vary i rt ∧ vary i rt ≤ 1

/-- The states reachable at the engine's public interface: a freshly generated
level (for any level ≥ 1 and any admissible random draws) followed by any
sequence of `allocate_resource` calls. -/
inductive Reachable : GameState → Prop
  | init (level : Nat) (shuffled : List (String × (ResourceType → Nat)))
      (vary : Nat → ResourceType → Int) :
      1 ≤ level → shuffled.Perm processTemplates → ValidVary vary →
      Reachable (GameState.new level shuffled vary)
  | alloc (g : GameState) (pid : String) (rt : ResourceType) (amount : Nat) :
      Reachable g → Reachable (g.allocate_resource pid rt amount).1

/-! ## Basic lemmas -/

lemma ResourceType.mem_all (rt : ResourceType) : rt ∈ ResourceType.all := by
  cases rt <;> simp [ResourceType.all]

lemma can_finish_iff {p : Process} {av : ResourceType → Nat} :
    p.can_finish av = true ↔
      ∀ rt, p.required_resources rt - p.allocated_resources rt ≤ av rt := by
  simp only [Process.can_finish, List.all_eq_true, decide_eq_true_eq]
  exact ⟨fun h rt => h rt (ResourceType.mem_all rt), fun h rt _ => h rt⟩

lemma is_satisfied_iff {p : Process} :
    p.is_satisfied = true ↔ ∀ rt, p.required_resources rt ≤ p.allocated_resources rt := by
  simp only [Process.is_satisfied, List.all_eq_true, decide_eq_true_eq]
  exact ⟨fun h rt => h rt (ResourceType.mem_all rt), fun h rt _ => h rt⟩

lemma is_satisfied_eq_false_iff {p : Process} :
    p.is_satisfied = false ↔ ∃ rt, p.allocated_resources rt < p.required_resources rt := by
  rw [Bool.eq_false_iff, Ne, is_satisfied_iff]
  push_neg
  exact Iff.rfl

lemma can_finish_mono {p : Process} {av av' : ResourceType → Nat}
    (h : ∀ rt, av rt ≤ av' rt) (hc : p.can_finish av = true) : p.can_finish av' = true := by
  rw [can_finish_iff] at hc ⊢
  exact fun rt => le_trans (hc rt) (h rt)

lemma releaseAll_mono {av av' : ResourceType → Nat} (p : Process)
    (h : ∀ rt, av rt ≤ av' rt) : ∀ rt, releaseAll av p rt ≤ releaseAll av' p rt := by
  intro rt
  exact Nat.add_le_add_right (h rt) _

lemma releaseAll_comm (av : ResourceType → Nat) (p q : Process) :
    releaseAll (releaseAll av p) q = releaseAll (releaseAll av q) p := by
  funext rt
  simp [releaseAll]
  omega

/-! ## The difficulty multiplier: `Nat` form vs. the exact rational formula -/

/-- The `Nat` numerator embeds the exact multiplier
`max(0.7, 1.2 - level*0.1)` of line 108. -/
lemma difficulty_multiplier_eq (level : Nat) :
    (difficulty_multiplier_num level : ℚ) / 10 =
      max (7/10 : ℚ) (12/10 - (level : ℚ) * (1/10)) := by
  unfold difficulty_multiplier_num
  rcases le_or_lt level 12 with h | h
  · have hc : ((12 - level : ℕ) : ℚ) = 12 - (level : ℚ) := by
      push_cast [Nat.cast_sub h]
      ring
    have h2 : (12/10 : ℚ) - (level : ℚ) * (1/10) = (12 - (level : ℚ)) / 10 := by ring
    rw [Nat.cast_max, hc, h2, ← max_div_div_right (by norm_num : (0:ℚ) ≤ 10)]
    norm_num
  · have h0 : (12 : ℕ) - level = 0 := by omega
    rw [h0]
    have : (12/10 : ℚ) - (level : ℚ) * (1/10) < 7/10 := by
      have : (13 : ℚ) ≤ (level : ℚ) := by exact_mod_cast h
      nlinarith
    rw [max_eq_left (le_of_lt this)]
    norm_num

/-- `init_total` equals the spec's formula
`max(2, ⌊base · max(0.7, 1.2 − 0.1·level)⌋)`. -/
lemma init_total_eq_floor (level : Nat) (rt : ResourceType) :
    init_total level rt =
      max 2 (⌊(base_amounts rt : ℚ) *
        max (7/10 : ℚ) (12/10 - (level : ℚ) * (1/10))⌋.toNat) := by
  unfold init_total
  congr 1
  rw [← difficulty_multiplier_eq]
  have : (base_amounts rt : ℚ) * ((difficulty_multiplier_num level : ℚ) / 10) =
      ((base_amounts rt * difficulty_multiplier_num level : ℕ) : ℤ) / ((10 : ℕ) : ℚ) := by
    push_cast
    ring
  rw [this, Rat.floor_intCast_div_natCast, ← Int.natCast_div, Int.toNat_natCast]

/-! ## The reduction loop of `detect_deadlock` -/

lemma removeFirstFinishable_eq_some {av : ResourceType → Nat} :
    ∀ {ps : List Process} {av2 ps2}, removeFirstFinishable av ps = some (av2, ps2) →
      ∃ l1 p l2, ps = l1 ++ p :: l2 ∧ ps2 = l1 ++ l2 ∧
        p.can_finish av = true ∧ av2 = releaseAll av p := by
  intro ps
  induction ps with
  | nil => intro av2 ps2 h; simp [removeFirstFinishable] at h
  | cons p ps ih =>
    intro av2 ps2 h
    by_cases hc : p.can_finish av = true
    · rw [removeFirstFinishable, if_pos hc] at h
      obtain ⟨h1, h2⟩ := Prod.mk.injEq .. ▸ Option.some.inj h
      exact ⟨[], p, ps, rfl, by simp [h2.symm], hc, h1.symm⟩
    · rw [removeFirstFinishable, if_neg hc] at h
      cases hrec : removeFirstFinishable av ps with
      | none => rw [hrec] at h; exact absurd h (by simp)
      | some x =>
        obtain ⟨av2', ps2'⟩ := x
        rw [hrec] at h
        obtain ⟨h1, h2⟩ := Prod.mk.injEq .. ▸ Option.some.inj h
        obtain ⟨l1, q, l2, e1, e2, e3, e4⟩ := ih hrec
        exact ⟨p :: l1, q, l2, by rw [e1]; rfl, by rw [← h2, e2]; rfl, e3, h1 ▸ e4⟩

lemma removeFirstFinishable_eq_none {av : ResourceType → Nat} :
    ∀ {ps : List Process}, removeFirstFinishable av ps = none →
      ∀ p ∈ ps, p.can_finish av = false := by
  intro ps
  induction ps with
  | nil => intro _ p hp; exact absurd hp (List.not_mem_nil p)
  | cons q ps ih =>
    intro h p hp
    by_cases hc : q.can_finish av = true
    · rw [removeFirstFinishable, if_pos hc] at h; exact absurd h (by simp)
    · rw [removeFirstFinishable, if_neg hc] at h
      rcases List.mem_cons.mp hp with rfl | hmem
      · exact Bool.eq_false_iff.mpr hc
      · cases hrec : removeFirstFinishable av ps with
        | none => exact ih hrec p hmem
        | some x => rw [hrec] at h; exact absurd h (by simp)

lemma detectLoop_nil (n : Nat) (av : ResourceType → Nat) : detectLoop n av [] = [] := by
  cases n with
  | zero => rfl
  | succ n => rfl

/-- Fuel monotonicity: once `ps.length ≤ n`, more fuel changes nothing (each
successful pass removes exactly one process, so `length` passes reach the
loop's fixpoint). -/
lemma detectLoop_stable :
    ∀ (n : Nat) (av : ResourceType → Nat) (ps : List Process), ps.length ≤ n →
      ∀ k, detectLoop (n + k) av ps = detectLoop n av ps := by
  intro n
  induction n with
  | zero =>
    intro av ps h k
    rw [List.length_eq_zero.mp (Nat.le_zero.mp h)]
    rw [detectLoop_nil, detectLoop_nil]
  | succ n ih =>
    intro av ps h k
    cases hr : removeFirstFinishable av ps with
    | none =>
      show detectLoop (n + 1 + k) av ps = detectLoop (n + 1) av ps
      have : n + 1 + k = (n + k) + 1 := by omega
      rw [this]
      rw [detectLoop, hr, detectLoop, hr]
    | some x =>
      obtain ⟨av2, ps2⟩ := x
      obtain ⟨l1, p, l2, e1, e2, _, _⟩ := removeFirstFinishable_eq_some hr
      have hlen : ps2.length ≤ n := by
        subst e1 e2; simp at h ⊢; omega
      have : n + 1 + k = (n + k) + 1 := by omega
      rw [this]
      rw [detectLoop, hr, detectLoop, hr]
      exact ih av2 ps2 hlen k

/-- Moving a process that can finish right now to the front of a successful
finishing order keeps the order successful. -/
lemma seq_extract (p : Process) :
    ∀ (l1 : List Process) (l2 : List Process) (av : ResourceType → Nat),
      p.can_finish av = true → seqFinishes av (l1 ++ p :: l2) = true →
      seqFinishes (releaseAll av p) (l1 ++ l2) = true := by
  intro l1
  induction l1 with
  | nil =>
    intro l2 av _ hseq
    simp only [List.nil_append, seqFinishes, Bool.and_eq_true] at hseq ⊢
    exact hseq.2
  | cons x l1 ih =>
    intro l2 av hp hseq
    simp only [List.cons_append, seqFinishes, Bool.and_eq_true] at hseq ⊢
    obtain ⟨hx, hrest⟩ := hseq
    refine ⟨can_finish_mono (fun rt => Nat.le_add_right _ _) hx, ?_⟩
    rw [releaseAll_comm]
    exact ih l2 (releaseAll av x) (can_finish_mono (fun rt => Nat.le_add_right _ _) hp) hrest

/-- Greedy completeness: if some ordering finishes everything, the first-fit
reduction loop empties the unresolved list. -/
lemma detectLoop_nil_of_seq :
    ∀ (n : Nat) (av : ResourceType → Nat) (ps : List Process), ps.length = n →
      (∃ l, ps.Perm l ∧ seqFinishes av l = true) → detectLoop n av ps = [] := by
  intro n
  induction n with
  | zero =>
    intro av ps h _
    rw [List.length_eq_zero.mp h]
    exact detectLoop_nil 0 av
  | succ n ih =>
    intro av ps hlen ⟨l, hperm, hseq⟩
    cases l with
    | nil => exact absurd (hperm.length_eq.trans rfl) (by rw [hlen]; simp)
    | cons q l' =>
      have hq : q.can_finish av = true := by
        simp only [seqFinishes, Bool.and_eq_true] at hseq
        exact hseq.1
      cases hr : removeFirstFinishable av ps with
      | none =>
        have hqps : q ∈ ps := hperm.mem_iff.mpr (List.mem_cons_self q l')
        rw [removeFirstFinishable_eq_none hr q hqps] at hq
        exact absurd hq (by simp)
      | some x =>
        obtain ⟨av2, ps2⟩ := x
        obtain ⟨l1, p, l2, e1, e2, hp, hav2⟩ := removeFirstFinishable_eq_some hr
        have hpl : p ∈ (q :: l') := hperm.mem_iff.mp (by rw [e1]; exact List.mem_append_right l1 (List.mem_cons_self p l2))
        obtain ⟨m1, m2, hm⟩ := List.append_of_mem hpl
        have hseq2 : seqFinishes (releaseAll av p) (m1 ++ m2) = true := by
          refine seq_extract p m1 m2 av hp ?_
          rw [← hm]; exact hseq
        have hA : ps.Perm (p :: ps2) := by
          rw [e1, e2]; exact List.perm_middle
        have hB : ps.Perm (p :: (m1 ++ m2)) :=
          hperm.trans (by rw [hm]; exact List.perm_middle)
        have hperm2 : ps2.Perm (m1 ++ m2) := (hA.symm.trans hB).cons_inv
        have hlen2 : ps2.length = n := by
          subst e1 e2; simp at hlen ⊢; omega
        rw [← hav2] at hseq2
        rw [detectLoop, hr]
        exact ih av2 ps2 hlen2 ⟨m1 ++ m2, hperm2, hseq2⟩

/-- Greedy soundness: if the reduction loop empties the unresolved list, the
order in which it removed processes is a successful finishing order. -/
lemma seq_of_detectLoop_nil :
    ∀ (n : Nat) (av : ResourceType → Nat) (ps : List Process), detectLoop n av ps = [] →
      ∃ l, ps.Perm l ∧ seqFinishes av l = true := by
  intro n
  induction n with
  | zero =>
    intro av ps h
    exact ⟨[], by rw [show ps = [] from h], rfl⟩
  | succ n ih =>
    intro av ps h
    cases hr : removeFirstFinishable av ps with
    | none =>
      rw [detectLoop, hr] at h
      exact ⟨[], by rw [show ps = [] from h], rfl⟩
    | some x =>
      obtain ⟨av2, ps2⟩ := x
      rw [detectLoop, hr] at h
      obtain ⟨l2, hperm2, hseq2⟩ := ih av2 ps2 h
      obtain ⟨l1, p, l2', e1, e2, hp, hav2⟩ := removeFirstFinishable_eq_some hr
      refine ⟨p :: l2, ?_, ?_⟩
      · have hA : ps.Perm (p :: ps2) := by rw [e1, e2]; exact List.perm_middle
        exact hA.trans (hperm2.cons p)
      · simp only [seqFinishes, Bool.and_eq_true]
        exact ⟨hp, by rw [← hav2]; exact hseq2⟩

/-- `detect_deadlock` returns `false` exactly when some ordering of the
unfinished processes finishes them all sequentially. -/
lemma detect_deadlock_eq_false_iff (g : GameState) :
    g.detect_deadlock = false ↔
      ∃ l, g.unfinished.Perm l ∧ seqFinishes g.get_available_resources l = true := by
  unfold GameState.detect_deadlock
  by_cases he : g.unfinished.isEmpty
  · rw [if_pos he]
    refine ⟨fun _ => ⟨[], ?_, rfl⟩, fun _ => rfl⟩
    rw [List.isEmpty_iff.mp he]
  · rw [if_neg he]
    simp only [decide_eq_false_iff_not, Nat.not_lt, Nat.le_zero, List.length_eq_zero]
    constructor
    · exact fun h => seq_of_detectLoop_nil _ _ _ h
    · exact fun h => detectLoop_nil_of_seq _ _ _ rfl h

lemma detect_deadlock_perm (g : GameState) (ps' : List Process)
    (hperm : ps'.Perm g.processes) :
    GameState.detect_deadlock { g with processes := ps' } = g.detect_deadlock := by
  have hunf : ({ g with processes := ps' } : GameState).unfinished.Perm g.unfinished :=
    hperm.filter _
  have h1 := detect_deadlock_eq_false_iff { g with processes := ps' }
  have h2 := detect_deadlock_eq_false_iff g
  have hav : ({ g with processes := ps' } : GameState).get_available_resources =
      g.get_available_resources := rfl
  rw [hav] at h1
  have hiff : GameState.detect_deadlock { g with processes := ps' } = false ↔
      g.detect_deadlock = false := by
    rw [h1, h2]
    exact ⟨fun ⟨l, hl, hs⟩ => ⟨l, hunf.symm.trans hl, hs⟩,
           fun ⟨l, hl, hs⟩ => ⟨l, hunf.trans hl, hs⟩⟩
  by_cases hg : g.detect_deadlock = false
  · rw [hg, hiff.mpr hg]
  · have hg' : ¬ GameState.detect_deadlock { g with processes := ps' } = false :=
      fun hc => hg (hiff.mp hc)
    rw [Bool.not_eq_false] at hg hg'
    rw [hg, hg']

/-- **C1.**  `detect_deadlock()` returns `false` iff some ordering of the
not-yet-Finished processes lets them all finish sequentially from the current
availability (each finished process returning its full allocation to the
working pool first); consequently the returned boolean is invariant under any
reordering of the process list, even though the first-fit scan order changes
which process is reduced first. -/
theorem detect_deadlock_safe_order (g : GameState) :
    (g.detect_deadlock = false ↔
      ∃ l, g.unfinished.Perm l ∧ seqFinishes g.get_available_resources l = true) ∧
    ∀ ps' : List Process, ps'.Perm g.processes →
      GameState.detect_deadlock { g with processes := ps' } = g.detect_deadlock :=
  ⟨detect_deadlock_eq_false_iff g, fun ps' h => detect_deadlock_perm g ps' h⟩

/-- Process A of the spec's circular-wait scenario (section 8): requires one
CPU and one DISCO, holds the CPU. -/
def procA : Process :=
  { id := "A", name := "A",
    required_resources := fun rt => match rt with
      | ResourceType.CPU => 1 | ResourceType.DISCO => 1 | _ => 0,
    allocated_resources := fun rt => match rt with
      | ResourceType.CPU => 1 | _ => 0,
    state := ProcessState.WAITING }

/-- Process B of the spec's circular-wait scenario: requires one CPU and one
DISCO, holds the DISCO. -/
def procB : Process :=
  { id := "B", name := "B",
    required_resources := fun rt => match rt with
      | ResourceType.CPU => 1 | ResourceType.DISCO => 1 | _ => 0,
    allocated_resources := fun rt => match rt with
      | ResourceType.DISCO => 1 | _ => 0,
    state := ProcessState.WAITING }

/-- The circular-wait game state: both units handed out, none available. -/
def gCircular : GameState :=
  { level := 1,
    resources := fun rt => match rt with
      | ResourceType.CPU => { type := ResourceType.CPU, total := 1, available := 0 }
      | ResourceType.DISCO => { type := ResourceType.DISCO, total := 1, available := 0 }
      | rt => { type := rt, total := 0, available := 0 },
    processes := [procA, procB],
    game_log := [],
    moves := 2,
    max_moves := 20 }

theorem detect_deadlock_safe_order_witness :
    GameState.detect_deadlock { gCircular with processes := [procB, procA] } =
      gCircular.detect_deadlock :=
  (detect_deadlock_safe_order gCircular).2 [procB, procA] (List.Perm.swap procA procB [])

/-- **C7.**  `detect_deadlock()` terminates on every input state: each pass of
the reduction loop removes exactly one process or ends the loop, so
`unfinished.length` passes already reach the loop's fixpoint (extra fuel
changes nothing, i.e. at most `length + 1` passes of the Python `while` loop
run, each a linear scan); and it returns `false` immediately when there are no
unfinished processes. -/
theorem detect_deadlock_terminates :
    (∀ (av : ResourceType → Nat) (ps : List Process) (k : Nat),
        detectLoop (ps.length + k) av ps = detectLoop ps.length av ps) ∧
    (∀ g : GameState, g.unfinished = [] → g.detect_deadlock = false) ∧
    (∀ (av : ResourceType → Nat) (ps : List Process) av2 ps2,
        removeFirstFinishable av ps = some (av2, ps2) → ps2.length + 1 = ps.length) := by
  refine ⟨fun av ps k => detectLoop_stable ps.length av ps le_rfl k, ?_, ?_⟩
  · intro g h
    rw [GameState.detect_deadlock]
    simp [h]
  · intro av ps av2 ps2 h
    obtain ⟨l1, p, l2, e1, e2, _, _⟩ := removeFirstFinishable_eq_some h
    subst e1 e2
    simp
    omega

/-- A game state whose processes are all gone (everything finished and the
list empty), used to instantiate `detect_deadlock_terminates`. -/
def gEmpty : GameState :=
  { level := 1, resources := _initialize_resources 1, processes := [],
    game_log := [], moves := 0, max_moves := 20 }

/-- A process with no outstanding demand, used to instantiate the
one-removal-per-pass part of `detect_deadlock_terminates`. -/
def procFree : Process :=
  { id := "F", name := "F", required_resources := fun _ => 0,
    allocated_resources := fun _ => 0, state := ProcessState.WAITING }

theorem detect_deadlock_terminates_witness :
    gEmpty.detect_deadlock = false ∧ ([] : List Process).length + 1 = [procFree].length :=
  ⟨detect_deadlock_terminates.2.1 gEmpty rfl,
   detect_deadlock_terminates.2.2 (fun _ => 0) [procFree] (releaseAll (fun _ => 0) procFree)
     [] rfl⟩

/-! ## Branch characterization of `allocate_resource` -/

lemma alloc_find_none {g : GameState} {pid : String} {rt : ResourceType} {amount : Nat}
    (h : g.processes.find? (fun q => q.id == pid) = none) :
    g.allocate_resource pid rt amount = (g, false) := by
  unfold GameState.allocate_resource
  rw [h]

lemma alloc_finished {g : GameState} {pid : String} {rt : ResourceType} {amount : Nat}
    {p : Process} (hf : g.processes.find? (fun q => q.id == pid) = some p)
    (hs : p.state = ProcessState.FINISHED) :
    g.allocate_resource pid rt amount = (g, false) := by
  unfold GameState.allocate_resource
  rw [hf]
  simp only [hs, if_true]

lemma alloc_insufficient {g : GameState} {pid : String} {rt : ResourceType} {amount : Nat}
    {p : Process} (hf : g.processes.find? (fun q => q.id == pid) = some p)
    (hnf : p.state ≠ ProcessState.FINISHED)
    (hav : (g.resources rt).available < amount) :
    g.allocate_resource pid rt amount = (g, false) := by
  simp only [GameState.allocate_resource, hf]
  rw [if_neg hnf]
  unfold Resource.allocate
  rw [if_neg (Nat.not_le.mpr hav)]

lemma alloc_success_unsat {g : GameState} {pid : String} {rt : ResourceType} {amount : Nat}
    {p : Process} (hf : g.processes.find? (fun q => q.id == pid) = some p)
    (hnf : p.state ≠ ProcessState.FINISHED)
    (hav : amount ≤ (g.resources rt).available)
    (hsat : (allocBump p rt amount).is_satisfied = false) :
    g.allocate_resource pid rt amount =
      ({ g with
          processes := updateFirst g.processes pid (fun _ => allocBump p rt amount),
          resources := fun r =>
            if r = rt then
              { g.resources rt with available := (g.resources rt).available - amount }
            else g.resources r,
          moves := g.moves + 1,
          game_log := g.game_log ++ [allocMsg amount rt pid] }, true) := by
  simp only [GameState.allocate_resource, hf]
  rw [if_neg hnf]
  unfold Resource.allocate
  rw [if_pos hav]
  simp only [hsat, Bool.false_eq_true, if_false]

lemma alloc_success_sat {g : GameState} {pid : String} {rt : ResourceType} {amount : Nat}
    {p : Process} (hf : g.processes.find? (fun q => q.id == pid) = some p)
    (hnf : p.state ≠ ProcessState.FINISHED)
    (hav : amount ≤ (g.resources rt).available)
    (hsat : (allocBump p rt amount).is_satisfied = true) :
    g.allocate_resource pid rt amount =
      ({ g with
          processes := updateFirst g.processes pid (fun _ => finishProcess (allocBump p rt amount)),
          resources := finishResources
            (fun r =>
              if r = rt then
                { g.resources rt with available := (g.resources rt).available - amount }
              else g.resources r)
            (allocBump p rt amount),
          moves := g.moves + 1,
          game_log := g.game_log ++
            [finishMsg (allocBump p rt amount), allocMsg amount rt pid] }, true) := by
  simp only [GameState.allocate_resource, hf]
  rw [if_neg hnf]
  unfold Resource.allocate
  rw [if_pos hav]
  simp only [hsat, if_true]

lemma find?_updateFirst {ps : List Process} {pid : String} {p : Process}
    (h : ps.find? (fun q => q.id == pid) = some p) (f : Process → Process) :
    ∃ l1 l2, ps = l1 ++ p :: l2 ∧ (∀ q ∈ l1, (q.id == pid) = false) ∧
      (p.id == pid) = true ∧ updateFirst ps pid f = l1 ++ f p :: l2 := by
  induction ps with
  | nil => exact absurd h (by simp)
  | cons x ps ih =>
    by_cases hx : (x.id == pid) = true
    · rw [List.find?_cons] at h
      simp only [hx] at h
      obtain rfl : x = p := Option.some.inj h
      refine ⟨[], ps, rfl, by simp, hx, ?_⟩
      simp only [updateFirst]
      rw [if_pos hx]
      rfl
    · rw [List.find?_cons] at h
      rw [Bool.not_eq_true] at hx
      simp only [hx] at h
      obtain ⟨l1, l2, e1, hl1, hp, e2⟩ := ih h
      refine ⟨x :: l1, l2, by rw [e1]; rfl, ?_, hp, ?_⟩
      · intro q hq
        rcases List.mem_cons.mp hq with rfl | hq'
        · exact hx
        · exact hl1 q hq'
      · simp only [updateFirst]
        rw [if_neg (by rw [hx]; exact Bool.false_ne_true), e2]
        rfl

/-! ## The engine invariant over reachable states -/

/-- Sum of the allocations of a given kind over a list of processes. -/
def allocSum (ps : List Process) (rt : ResourceType) : Nat :=
  (ps.map fun p => p.allocated_resources rt).sum

lemma allocSum_append (l1 l2 : List Process) (rt : ResourceType) :
    allocSum (l1 ++ l2) rt = allocSum l1 rt + allocSum l2 rt := by
  simp [allocSum]

lemma allocSum_cons (p : Process) (ps : List Process) (rt : ResourceType) :
    allocSum (p :: ps) rt = p.allocated_resources rt + allocSum ps rt := by
  simp [allocSum]

lemma allocSum_eq_zero {ps : List Process} {rt : ResourceType}
    (h : ∀ p ∈ ps, p.allocated_resources rt = 0) : allocSum ps rt = 0 := by
  induction ps with
  | nil => rfl
  | cons p ps ih =>
    rw [allocSum_cons, h p (List.mem_cons_self p ps),
      ih fun q hq => h q (List.mem_cons_of_mem p hq)]

/-- The inductive invariant of the engine: finished processes hold nothing,
unfinished processes are never already satisfied, resources of every kind are
conserved, and totals are the ones fixed at level creation. -/
def EngineInv (g : GameState) : Prop :=
  (∀ p ∈ g.processes, p.state = ProcessState.FINISHED →
      ∀ rt, p.allocated_resources rt = 0) ∧
  (∀ p ∈ g.processes, p.state ≠ ProcessState.FINISHED → p.is_satisfied = false) ∧
  (∀ rt, (g.resources rt).available + allocSum g.processes rt = (g.resources rt).total) ∧
  (∀ rt, (g.resources rt).total = init_total g.level rt)

/-- Every template in the catalog demands at least one unit of working
memory, so no generated process starts out satisfied. -/
lemma processTemplates_memoria :
    ∀ t ∈ processTemplates, t.2 ResourceType.MEMORIA ≠ 0 := by
  intro t ht
  fin_cases ht <;> decide

lemma varied_requirements_pos {level : Nat} {vary_i : ResourceType → Int}
    {req : ResourceType → Nat} {rt : ResourceType} (hreq : req rt ≠ 0) :
    1 ≤ varied_requirements level vary_i req rt := by
  unfold varied_requirements
  rw [if_neg hreq]
  have h1 : (1 : Int) ≤ max 1 ((req rt : Int) + (if 2 < level then vary_i rt else 0)) :=
    le_max_left _ _
  generalize max 1 ((req rt : Int) + (if 2 < level then vary_i rt else 0)) = m at h1 ⊢
  omega

lemma generated_shape {level : Nat} {shuffled : List (String × (ResourceType → Nat))}
    {vary : Nat → ResourceType → Int} {p : Process}
    (hp : p ∈ _generate_processes level shuffled vary) :
    ∃ i t, t ∈ shuffled ∧ p = mkProcess level vary (i, t) := by
  unfold _generate_processes at hp
  obtain ⟨⟨i, t⟩, hmem, rfl⟩ := List.mem_map.mp hp
  refine ⟨i, t, ?_, rfl⟩
  have hmem2 := List.mem_enum hmem
  have ht : t ∈ List.take ((2 + level) ⊓ 6 ⊓ shuffled.length) shuffled := by
    rw [hmem2.2]
    exact List.getElem_mem hmem2.1
  exact List.take_subset _ _ ht

lemma engineInv_new (level : Nat) (shuffled : List (String × (ResourceType → Nat)))
    (vary : Nat → ResourceType → Int) (h2 : shuffled.Perm processTemplates) :
    EngineInv (GameState.new level shuffled vary) := by
  refine ⟨?_, ?_, ?_, fun rt => rfl⟩
  · intro p hp _ rt
    obtain ⟨i, t, _, rfl⟩ := generated_shape hp
    rfl
  · intro p hp _
    obtain ⟨i, t, htm, rfl⟩ := generated_shape hp
    rw [is_satisfied_eq_false_iff]
    refine ⟨ResourceType.MEMORIA, ?_⟩
    have ht : t ∈ processTemplates := h2.mem_iff.mp htm
    exact @varied_requirements_pos level (vary i) t.2 ResourceType.MEMORIA
      (processTemplates_memoria t ht)
  · intro rt
    have hz : allocSum (_generate_processes level shuffled vary) rt = 0 :=
      allocSum_eq_zero fun p hp => by
        obtain ⟨i, t, _, rfl⟩ := generated_shape hp
        rfl
    show init_total level rt + allocSum (_generate_processes level shuffled vary) rt
        = init_total level rt
    rw [hz, Nat.add_zero]

lemma finishResources_available (resources : ResourceType → Resource) (p : Process)
    (r : ResourceType)
    (hb : (resources r).available + p.allocated_resources r ≤ (resources r).total) :
    (finishResources resources p r).available =
        (resources r).available + p.allocated_resources r ∧
      (finishResources resources p r).total = (resources r).total := by
  unfold finishResources Resource.release
  by_cases h0 : 0 < p.allocated_resources r
  · rw [if_pos h0]
    exact ⟨Nat.min_eq_right hb, rfl⟩
  · rw [if_neg h0]
    omega

lemma engineInv_alloc (g : GameState) (pid : String) (rt : ResourceType) (amount : Nat)
    (h : EngineInv g) : EngineInv (g.allocate_resource pid rt amount).1 := by
  obtain ⟨hfin0, hunsat0, hcons0, htot0⟩ := h
  cases hfind : g.processes.find? (fun q => q.id == pid) with
  | none =>
    rw [alloc_find_none hfind]
    exact ⟨hfin0, hunsat0, hcons0, htot0⟩
  | some p =>
    by_cases hst : p.state = ProcessState.FINISHED
    · rw [alloc_finished hfind hst]
      exact ⟨hfin0, hunsat0, hcons0, htot0⟩
    · by_cases hav : amount ≤ (g.resources rt).available
      · by_cases hsat : (allocBump p rt amount).is_satisfied = true
        · -- the allocation satisfies the process, which finishes and releases
          obtain ⟨l1, l2, e1, hl1, hpid, e2⟩ :=
            find?_updateFirst hfind (fun _ => finishProcess (allocBump p rt amount))
          rw [alloc_success_sat hfind hst hav hsat]
          set res1 : ResourceType → Resource := fun r =>
            if r = rt then
              { g.resources rt with available := (g.resources rt).available - amount }
            else g.resources r with hres1
          have hres1_av : ∀ r, (res1 r).available =
              if r = rt then (g.resources rt).available - amount
              else (g.resources r).available := by
            intro r
            by_cases hr : r = rt <;> simp [hres1, hr]
          have hres1_tot : ∀ r, (res1 r).total = (g.resources r).total := by
            intro r
            by_cases hr : r = rt
            · subst hr; simp [hres1]
            · simp [hres1, hr]
          have hp1 : ∀ r, (allocBump p rt amount).allocated_resources r =
              if r = rt then p.allocated_resources r + amount
              else p.allocated_resources r := fun r => rfl
          have hsum : ∀ r, (g.resources r).available +
              (allocSum l1 r + (p.allocated_resources r + allocSum l2 r)) =
              (g.resources r).total := by
            intro r
            have := hcons0 r
            rwa [e1, allocSum_append, allocSum_cons] at this
          have hbound : ∀ r, (res1 r).available +
              (allocBump p rt amount).allocated_resources r ≤ (res1 r).total := by
            intro r
            rw [hres1_av, hres1_tot, hp1]
            have := hsum r
            rcases eq_or_ne r rt with hr | hr
            · subst hr
              simp only [eq_self_iff_true, if_true]
              omega
            · simp only [if_neg hr]
              omega
          have hfr := fun r =>
            finishResources_available res1 (allocBump p rt amount) r (hbound r)
          refine ⟨?_, ?_, ?_, ?_⟩
          · intro q hq hqfin r
            rw [e2] at hq
            rcases List.mem_append.mp hq with hq1 | hq2
            · exact hfin0 q (by rw [e1]; exact List.mem_append_left _ hq1) hqfin r
            · rcases List.mem_cons.mp hq2 with rfl | hq2'
              · rfl
              · exact hfin0 q
                  (by rw [e1]; exact List.mem_append_right _ (List.mem_cons_of_mem _ hq2'))
                  hqfin r
          · intro q hq hqnf
            rw [e2] at hq
            rcases List.mem_append.mp hq with hq1 | hq2
            · exact hunsat0 q (by rw [e1]; exact List.mem_append_left _ hq1) hqnf
            · rcases List.mem_cons.mp hq2 with rfl | hq2'
              · exact absurd rfl hqnf
              · exact hunsat0 q
                  (by rw [e1]; exact List.mem_append_right _ (List.mem_cons_of_mem _ hq2'))
                  hqnf
          · intro r
            show (finishResources res1 (allocBump p rt amount) r).available +
                allocSum (updateFirst g.processes pid
                  (fun _ => finishProcess (allocBump p rt amount))) r =
              (finishResources res1 (allocBump p rt amount) r).total
            rw [e2, allocSum_append, allocSum_cons, (hfr r).1, (hfr r).2,
              hres1_av, hres1_tot, hp1]
            have hz : (finishProcess (allocBump p rt amount)).allocated_resources r = 0 := rfl
            rw [hz]
            have := hsum r
            rcases eq_or_ne r rt with hr | hr
            · subst hr
              simp only [eq_self_iff_true, if_true]
              omega
            · simp only [if_neg hr]
              omega
          · intro r
            show (finishResources res1 (allocBump p rt amount) r).total = init_total g.level r
            rw [(hfr r).2, hres1_tot]
            exact htot0 r
        · -- plain allocation: the process stays unfinished
          have hsatf : (allocBump p rt amount).is_satisfied = false :=
            Bool.eq_false_iff.mpr hsat
          obtain ⟨l1, l2, e1, hl1, hpid, e2⟩ :=
            find?_updateFirst hfind (fun _ => allocBump p rt amount)
          rw [alloc_success_unsat hfind hst hav hsatf]
          have hp1 : ∀ r, (allocBump p rt amount).allocated_resources r =
              if r = rt then p.allocated_resources r + amount
              else p.allocated_resources r := fun r => rfl
          have hp1st : (allocBump p rt amount).state = p.state := rfl
          have hsum : ∀ r, (g.resources r).available +
              (allocSum l1 r + (p.allocated_resources r + allocSum l2 r)) =
              (g.resources r).total := by
            intro r
            have := hcons0 r
            rwa [e1, allocSum_append, allocSum_cons] at this
          refine ⟨?_, ?_, ?_, ?_⟩
          · intro q hq hqfin r
            rw [e2] at hq
            rcases List.mem_append.mp hq with hq1 | hq2
            · exact hfin0 q (by rw [e1]; exact List.mem_append_left _ hq1) hqfin r
            · rcases List.mem_cons.mp hq2 with rfl | hq2'
              · rw [hp1st] at hqfin
                exact absurd hqfin hst
              · exact hfin0 q
                  (by rw [e1]; exact List.mem_append_right _ (List.mem_cons_of_mem _ hq2'))
                  hqfin r
          · intro q hq hqnf
            rw [e2] at hq
            rcases List.mem_append.mp hq with hq1 | hq2
            · exact hunsat0 q (by rw [e1]; exact List.mem_append_left _ hq1) hqnf
            · rcases List.mem_cons.mp hq2 with rfl | hq2'
              · exact hsatf
              · exact hunsat0 q
                  (by rw [e1]; exact List.mem_append_right _ (List.mem_cons_of_mem _ hq2'))
                  hqnf
          · intro r
            show (if r = rt then
                  { g.resources rt with available := (g.resources rt).available - amount }
                else g.resources r).available +
              allocSum (updateFirst g.processes pid (fun _ => allocBump p rt amount)) r =
              (if r = rt then
                  { g.resources rt with available := (g.resources rt).available - amount }
                else g.resources r).total
            rw [e2, allocSum_append, allocSum_cons, hp1]
            have := hsum r
            rcases eq_or_ne r rt with hr | hr
            · subst hr
              simp only [eq_self_iff_true, if_true]
              omega
            · simp only [if_neg hr]
              omega
          · intro r
            show (if r = rt then
                  { g.resources rt with available := (g.resources rt).available - amount }
                else g.resources r).total = init_total g.level r
            by_cases hr : r = rt
            · subst hr
              simp only [if_pos rfl]
              exact htot0 r
            · rw [if_neg hr]
              exact htot0 r
      · rw [alloc_insufficient hfind hst (Nat.not_le.mp hav)]
        exact ⟨hfin0, hunsat0, hcons0, htot0⟩

/-- Every reachable state satisfies the engine invariant. -/
lemma reachable_engineInv {g : GameState} (h : Reachable g) : EngineInv g := by
  induction h with
  | init level shuffled vary _ h2 _ => exact engineInv_new level shuffled vary h2
  | alloc g pid rt amount _ ih => exact engineInv_alloc g pid rt amount ih

lemma allocSum_filter {ps : List Process} {rt : ResourceType}
    (h : ∀ p ∈ ps, p.state = ProcessState.FINISHED → p.allocated_resources rt = 0) :
    allocSum (ps.filter fun p => decide (p.state ≠ ProcessState.FINISHED)) rt
      = allocSum ps rt := by
  induction ps with
  | nil => rfl
  | cons p ps ih =>
    rw [List.filter_cons]
    by_cases hp : p.state = ProcessState.FINISHED
    · rw [show decide (p.state ≠ ProcessState.FINISHED) = false by simp [hp]]
      simp only [Bool.false_eq_true, if_false]
      rw [allocSum_cons, h p (List.mem_cons_self p ps) hp,
        ih fun q hq hf => h q (List.mem_cons_of_mem p hq) hf, Nat.zero_add]
    · rw [show decide (p.state ≠ ProcessState.FINISHED) = true by simp [hp]]
      simp only [if_true]
      rw [allocSum_cons, allocSum_cons,
        ih fun q hq hf => h q (List.mem_cons_of_mem p hq) hf]

/-- **C2.**  Conservation: in every state reachable from level creation through
any sequence of `allocate_resource` calls, for every kind the available count
plus the summed allocations of the non-Finished processes equals the total,
and the total is still the value fixed at level creation
(`init_total` of the state's level, which no operation ever changes). -/
theorem conservation_invariant (g : GameState) (h : Reachable g) (rt : ResourceType) :
    (g.resources rt).available + allocSum g.unfinished rt = (g.resources rt).total ∧
    (g.resources rt).total = init_total g.level rt := by
  obtain ⟨hfin, _, hcons, htot⟩ := reachable_engineInv h
  refine ⟨?_, htot rt⟩
  rw [GameState.unfinished, allocSum_filter fun p hp hf => hfin p hp hf rt]
  exact hcons rt

/-- The variation draws that always return `0` (possible for
`random.randint(-1, 1)`). -/
def zeroVary : Nat → ResourceType → Int := fun _ _ => 0

/-- The freshly generated level-1 state with the catalog drawn in its listed
order: three processes `P1` (Editor de Texto), `P2` (Compilador),
`P3` (Backup), all totals `[4, 4, 3, 2]`. -/
def gInit : GameState := GameState.new 1 processTemplates zeroVary

lemma validVary_zero : ValidVary zeroVary := by
  intro i rt
  constructor <;> simp [zeroVary]

lemma reachable_gInit : Reachable gInit :=
  Reachable.init 1 processTemplates zeroVary le_rfl (List.Perm.refl _) validVary_zero

theorem conservation_invariant_witness :
    (gInit.resources ResourceType.CPU).available + allocSum gInit.unfinished ResourceType.CPU
      = (gInit.resources ResourceType.CPU).total :=
  (conservation_invariant gInit reachable_gInit ResourceType.CPU).1

/-- The reachable state obtained from `gInit` by granting three CPU units to
`P2` (Compilador), which only requires two: the pool debit goes through and
the stored allocation exceeds the requirement. -/
def gBug : GameState := (gInit.allocate_resource "P2" ResourceType.CPU 3).1

/-- **C3 is violated by the code** (the spec itself flags this as a latent
upstream bug in section 9): `allocate_resource` never caps `amount` at the
remaining need, so a reachable state has a process with
`allocated[CPU] = 3 > 2 = required[CPU]`. -/
theorem overallocation_reachable :
    Reachable gBug ∧
    ∃ p ∈ gBug.processes,
      p.required_resources ResourceType.CPU < p.allocated_resources ResourceType.CPU :=
  ⟨Reachable.alloc gInit "P2" ResourceType.CPU 3 reachable_gInit, by decide⟩

/-- The reachable level-1 state in which `P1` (Editor de Texto: one CPU, two
MEMORIA) already holds one CPU and one MEMORIA; one more MEMORIA completes
it. -/
def gMid : GameState :=
  ((gInit.allocate_resource "P1" ResourceType.CPU 1).1.allocate_resource
    "P1" ResourceType.MEMORIA 1).1

lemma reachable_gMid : Reachable gMid :=
  Reachable.alloc _ "P1" ResourceType.MEMORIA 1
    (Reachable.alloc _ "P1" ResourceType.CPU 1 reachable_gInit)

/-- **C4 as stated is false**: a successful call that completes the process
releases everything in the same call, so the pool's available count does not
end up decreased by `amount` (here MEMORIA availability goes from 3 up to 4
instead of down to 2), already on a reachable state. -/
theorem allocate_effects_counterexample :
    Reachable gMid ∧
    (gMid.allocate_resource "P1" ResourceType.MEMORIA 1).2 = true ∧
    ¬ ((gMid.allocate_resource "P1" ResourceType.MEMORIA 1).1.resources
          ResourceType.MEMORIA).available
        = (gMid.resources ResourceType.MEMORIA).available - 1 :=
  ⟨reachable_gMid, by decide, by decide⟩

/-- **C4 (amended).**  `allocate_resource` returns `false` with the state
unchanged when the process id does not exist, when the named process is
Finished, or when `available[kind] < amount`; otherwise it returns `true`,
increments the move counter by exactly one and appends the allocation audit
entry (preceded by a completion entry when the process finishes); when the
allocation does not make the process satisfied it moreover decreases
`available[kind]` by `amount` and increases that process's `allocated[kind]`
by `amount`, leaving everything else unchanged. -/
theorem allocate_resource_spec (g : GameState) (pid : String) (rt : ResourceType)
    (amount : Nat) :
    ((∀ q ∈ g.processes, (q.id == pid) = false) →
        g.allocate_resource pid rt amount = (g, false)) ∧
    ∀ p, g.processes.find? (fun q => q.id == pid) = some p →
      (p.state = ProcessState.FINISHED → g.allocate_resource pid rt amount = (g, false)) ∧
      (p.state ≠ ProcessState.FINISHED → (g.resources rt).available < amount →
        g.allocate_resource pid rt amount = (g, false)) ∧
      (p.state ≠ ProcessState.FINISHED → amount ≤ (g.resources rt).available →
        (g.allocate_resource pid rt amount).2 = true ∧
        (g.allocate_resource pid rt amount).1.moves = g.moves + 1 ∧
        (∃ pre, (g.allocate_resource pid rt amount).1.game_log
            = g.game_log ++ pre ++ [allocMsg amount rt pid]) ∧
        ((allocBump p rt amount).is_satisfied = false →
          (g.allocate_resource pid rt amount).1.game_log
              = g.game_log ++ [allocMsg amount rt pid] ∧
          ((g.allocate_resource pid rt amount).1.resources rt).available
              = (g.resources rt).available - amount ∧
          (∀ r, r ≠ rt → (g.allocate_resource pid rt amount).1.resources r
              = g.resources r) ∧
          ∃ l1 l2, g.processes = l1 ++ p :: l2 ∧
            (g.allocate_resource pid rt amount).1.processes
              = l1 ++ allocBump p rt amount :: l2 ∧
            (allocBump p rt amount).allocated_resources rt
              = p.allocated_resources rt + amount ∧
            (∀ r, r ≠ rt → (allocBump p rt amount).allocated_resources r
              = p.allocated_resources r) ∧
            (allocBump p rt amount).state = p.state)) := by
  constructor
  · intro hnone
    exact alloc_find_none (List.find?_eq_none.mpr fun q hq =>
      by rw [hnone q hq]; exact Bool.false_ne_true)
  · intro p hfind
    refine ⟨fun hs => alloc_finished hfind hs, fun hnf hlt => alloc_insufficient hfind hnf hlt, ?_⟩
    intro hnf hav
    by_cases hsat : (allocBump p rt amount).is_satisfied = true
    · rw [alloc_success_sat hfind hnf hav hsat]
      refine ⟨rfl, rfl, ⟨[finishMsg (allocBump p rt amount)], by simp⟩, ?_⟩
      intro hfalse
      rw [hsat] at hfalse
      exact absurd hfalse (by simp)
    · have hsatf : (allocBump p rt amount).is_satisfied = false := Bool.eq_false_iff.mpr hsat
      rw [alloc_success_unsat hfind hnf hav hsatf]
      obtain ⟨l1, l2, e1, _, _, e2⟩ := find?_updateFirst hfind (fun _ => allocBump p rt amount)
      refine ⟨rfl, rfl, ⟨[], by simp⟩, ?_⟩
      intro _
      refine ⟨rfl, by simp, fun r hr => by simp [hr], l1, l2, e1, e2, ?_, ?_, rfl⟩
      · show (if rt = rt then p.allocated_resources rt + amount else p.allocated_resources rt)
          = p.allocated_resources rt + amount
        rw [if_pos rfl]
      intro r hr
      show (if r = rt then p.allocated_resources r + amount else p.allocated_resources r)
        = p.allocated_resources r
      rw [if_neg hr]

/-- A single process needing two CPU units; allocating one unit succeeds
without completing it. -/
def procTwo : Process :=
  { id := "R", name := "R",
    required_resources := fun rt => match rt with | ResourceType.CPU => 2 | _ => 0,
    allocated_resources := fun _ => 0,
    state := ProcessState.WAITING }

def gTwo : GameState :=
  { level := 1, resources := fun rt => { type := rt, total := 2, available := 2 },
    processes := [procTwo], game_log := [], moves := 0, max_moves := 20 }

theorem allocate_resource_spec_witness :
    gTwo.allocate_resource "Z" ResourceType.CPU 1 = (gTwo, false) ∧
    (gTwo.allocate_resource "R" ResourceType.CPU 1).2 = true ∧
    ((gTwo.allocate_resource "R" ResourceType.CPU 1).1.resources ResourceType.CPU).available
      = (gTwo.resources ResourceType.CPU).available - 1 := by
  have h1 := (allocate_resource_spec gTwo "Z" ResourceType.CPU 1).1 (by decide)
  have h2 := ((allocate_resource_spec gTwo "R" ResourceType.CPU 1).2 procTwo rfl).2.2
    (by decide) (by decide)
  exact ⟨h1, h2.1, (h2.2.2.2 (by decide)).2.1⟩

/-- **C5.**  When a successful `allocate_resource` call makes the process
satisfied, that process transitions to Finished in the same call with every
allocation zeroed, and the pool's available count of every kind ends up equal
to its pre-call value plus the process's pre-call allocation (the debited
`amount` comes straight back with the release, and the defensive clamp in
`release` never truncates on reachable states); moreover no reachable state
has a Finished process holding a non-zero allocation. -/
theorem finish_releases (g : GameState) (h : Reachable g) (pid : String)
    (rt : ResourceType) (amount : Nat) (p : Process)
    (hfind : g.processes.find? (fun q => q.id == pid) = some p)
    (hnf : p.state ≠ ProcessState.FINISHED)
    (hav : amount ≤ (g.resources rt).available)
    (hsat : (allocBump p rt amount).is_satisfied = true) :
    (g.allocate_resource pid rt amount).2 = true ∧
    (∃ l1 l2, g.processes = l1 ++ p :: l2 ∧
      (g.allocate_resource pid rt amount).1.processes
        = l1 ++ finishProcess (allocBump p rt amount) :: l2) ∧
    (finishProcess (allocBump p rt amount)).state = ProcessState.FINISHED ∧
    (∀ r, (finishProcess (allocBump p rt amount)).allocated_resources r = 0) ∧
    (∀ r, ((g.allocate_resource pid rt amount).1.resources r).available
        = (g.resources r).available + p.allocated_resources r) ∧
    (∀ q ∈ g.processes, q.state = ProcessState.FINISHED →
        ∀ r, q.allocated_resources r = 0) := by
  obtain ⟨hfin0, _, hcons0, _⟩ := reachable_engineInv h
  obtain ⟨l1, l2, e1, _, _, e2⟩ :=
    find?_updateFirst hfind (fun _ => finishProcess (allocBump p rt amount))
  rw [alloc_success_sat hfind hnf hav hsat]
  set res1 : ResourceType → Resource := fun r =>
    if r = rt then
      { g.resources rt with available := (g.resources rt).available - amount }
    else g.resources r with hres1
  have hres1_av : ∀ r, (res1 r).available =
      if r = rt then (g.resources rt).available - amount
      else (g.resources r).available := by
    intro r
    by_cases hr : r = rt <;> simp [hres1, hr]
  have hres1_tot : ∀ r, (res1 r).total = (g.resources r).total := by
    intro r
    by_cases hr : r = rt
    · subst hr; simp [hres1]
    · simp [hres1, hr]
  have hp1 : ∀ r, (allocBump p rt amount).allocated_resources r =
      if r = rt then p.allocated_resources r + amount
      else p.allocated_resources r := fun r => rfl
  have hsum : ∀ r, (g.resources r).available +
      (allocSum l1 r + (p.allocated_resources r + allocSum l2 r)) =
      (g.resources r).total := by
    intro r
    have := hcons0 r
    rwa [e1, allocSum_append, allocSum_cons] at this
  have hbound : ∀ r, (res1 r).available +
      (allocBump p rt amount).allocated_resources r ≤ (res1 r).total := by
    intro r
    rw [hres1_av, hres1_tot, hp1]
    have := hsum r
    rcases eq_or_ne r rt with hr | hr
    · subst hr
      simp only [eq_self_iff_true, if_true]
      omega
    · simp only [if_neg hr]
      omega
  have hfr := fun r => finishResources_available res1 (allocBump p rt amount) r (hbound r)
  refine ⟨rfl, ⟨l1, l2, e1, e2⟩, rfl, fun r => rfl, ?_, fun q hq hf r => hfin0 q hq hf r⟩
  intro r
  show (finishResources res1 (allocBump p rt amount) r).available
    = (g.resources r).available + p.allocated_resources r
  rw [(hfr r).1, hres1_av, hp1]
  have := hsum r
  rcases eq_or_ne r rt with hr | hr
  · subst hr
    simp only [eq_self_iff_true, if_true]
    omega
  · simp only [if_neg hr]

theorem finish_releases_witness :
    (gMid.allocate_resource "P1" ResourceType.MEMORIA 1).2 = true ∧
    ((gMid.allocate_resource "P1" ResourceType.MEMORIA 1).1.resources
        ResourceType.MEMORIA).available
      = (gMid.resources ResourceType.MEMORIA).available
        + (gMid.processes.get ⟨0, by decide⟩).allocated_resources ResourceType.MEMORIA := by
  have h := finish_releases gMid reachable_gMid "P1" ResourceType.MEMORIA 1
    (gMid.processes.get ⟨0, by decide⟩) rfl (by decide) (by decide) (by decide)
  exact ⟨h.1, h.2.2.2.2.1 ResourceType.MEMORIA⟩

/-- The two read-only queries of the engine's interface.  Both Python methods
only read the game state: `detect_deadlock` (lines 155-182) works on the
fresh dict built by `get_available_resources` (line 153) and a fresh local
list, and `is_level_complete` (lines 216-218) only reads process states, so
neither mutates the pool, any process, the move counter or the log; the
embedding records this by returning the state unchanged next to the result. -/
inductive QueryCall : Type
  | detect
  | complete

def runQuery (g : GameState) : QueryCall → GameState × Bool
  | QueryCall.detect => (g, g.detect_deadlock)
  | QueryCall.complete => (g, g.is_level_complete)

/-- Any interleaving of the two queries, threading the state through each
call, lines 155-182 and 216-218. -/
def runQueries (g : GameState) : List QueryCall → GameState × List Bool
  | [] => (g, [])
  | q :: qs =>
    let r := runQuery g q
    let rest := runQueries r.1 qs
    (rest.1, r.2 :: rest.2)

/-- **C6.**  `detect_deadlock()` and `is_level_complete()` are side-effect-free
and idempotent: any sequence of the two queries (any number of calls, in any
interleaving, with no intervening `allocate_resource`) leaves the state
exactly unchanged, and every call returns what the same query returns on the
first state. -/
theorem queries_pure (g : GameState) (qs : List QueryCall) :
    (runQueries g qs).1 = g ∧
    (runQueries g qs).2 = qs.map fun q => (runQuery g q).2 := by
  induction qs with
  | nil => exact ⟨rfl, rfl⟩
  | cons q qs ih =>
    obtain ⟨ih1, ih2⟩ := ih
    cases q
    · refine ⟨ih1, ?_⟩
      rw [List.map_cons, show runQueries g (QueryCall.detect :: qs)
        = ((runQueries g qs).1, g.detect_deadlock :: (runQueries g qs).2) from rfl, ih2]
      rfl
    · refine ⟨ih1, ?_⟩
      rw [List.map_cons, show runQueries g (QueryCall.complete :: qs)
        = ((runQueries g qs).1, g.is_level_complete :: (runQueries g qs).2) from rfl, ih2]
      rfl

/-- **C8.**  Level-generation postconditions: for every level ≥ 1 (and any
admissible `random.sample` draw), the process count is `min(2 + level, 6)`;
for each kind with base capacity `b` in `{CPU: 4, MEMORIA: 4, DISCO: 3,
IMPRESSORA: 2}`, total and initial available both equal
`max(2, ⌊b · max(0.7, 1.2 − 0.1·level)⌋)`; the move counter starts at 0 and
the move limit is 20 regardless of level. -/
theorem level_generation_spec (level : Nat)
    (shuffled : List (String × (ResourceType → Nat)))
    (vary : Nat → ResourceType → Int) (h1 : 1 ≤ level)
    (h2 : shuffled.Perm processTemplates) :
    (GameState.new level shuffled vary).processes.length = min (2 + level) 6 ∧
    (∀ rt, ((GameState.new level shuffled vary).resources rt).total =
        max 2 (⌊(base_amounts rt : ℚ) *
          max (7/10 : ℚ) (12/10 - (level : ℚ) * (1/10))⌋.toNat) ∧
      ((GameState.new level shuffled vary).resources rt).available =
        ((GameState.new level shuffled vary).resources rt).total) ∧
    base_amounts ResourceType.CPU = 4 ∧ base_amounts ResourceType.MEMORIA = 4 ∧
    base_amounts ResourceType.DISCO = 3 ∧ base_amounts ResourceType.IMPRESSORA = 2 ∧
    (GameState.new level shuffled vary).moves = 0 ∧
    (GameState.new level shuffled vary).max_moves = 20 := by
  refine ⟨?_, fun rt => ⟨?_, rfl⟩, rfl, rfl, rfl, rfl, rfl, rfl⟩
  · show (_generate_processes level shuffled vary).length = min (2 + level) 6
    unfold _generate_processes
    rw [List.length_map, List.enum_length, List.length_take]
    have h8 : shuffled.length = 8 := h2.length_eq
    omega
  · show init_total level rt = _
    exact init_total_eq_floor level rt

theorem level_generation_spec_witness :
    gInit.processes.length = min (2 + 1) 6 :=
  (level_generation_spec 1 processTemplates zeroVary le_rfl (List.Perm.refl _)).1

/-- **C9.**  For every level ≥ 1 and every admissible sequence of random
draws, every generated process starts with zero allocations, stems from a
catalog template whose name it carries, requires a kind iff the template
does, demands at least 1 of every kind it requires, and — for levels 1 and
2 — uses the template demands completely unchanged; generation is a total
function, so it never fails. -/
theorem process_generation_spec (level : Nat)
    (shuffled : List (String × (ResourceType → Nat)))
    (vary : Nat → ResourceType → Int) (h1 : 1 ≤ level)
    (h2 : shuffled.Perm processTemplates) (h3 : ValidVary vary) :
    ∀ p ∈ (GameState.new level shuffled vary).processes,
      (∀ rt, p.allocated_resources rt = 0) ∧
      ∃ t ∈ processTemplates, p.name = t.1 ∧
        (∀ rt, t.2 rt = 0 ↔ p.required_resources rt = 0) ∧
        (∀ rt, t.2 rt ≠ 0 → 1 ≤ p.required_resources rt) ∧
        (level ≤ 2 → p.required_resources = t.2) := by
  intro p hp
  obtain ⟨i, t, htm, rfl⟩ := generated_shape hp
  refine ⟨fun rt => rfl, t, h2.mem_iff.mp htm, rfl, ?_, ?_, ?_⟩
  · intro rt
    constructor
    · intro h0
      show varied_requirements level (vary i) t.2 rt = 0
      unfold varied_requirements
      rw [if_pos h0]
    · intro h0
      by_contra hne
      have hpos := @varied_requirements_pos level (vary i) t.2 rt hne
      have h0' : varied_requirements level (vary i) t.2 rt = 0 := h0
      omega
  · intro rt hne
    exact @varied_requirements_pos level (vary i) t.2 rt hne
  · intro hle
    funext rt
    show varied_requirements level (vary i) t.2 rt = t.2 rt
    unfold varied_requirements
    by_cases h0 : t.2 rt = 0
    · rw [if_pos h0, h0]
    · rw [if_neg h0, if_neg (by omega : ¬ 2 < level), Int.add_zero,
        max_eq_right (by exact_mod_cast Nat.one_le_iff_ne_zero.mpr h0 : (1:ℤ) ≤ (t.2 rt : ℤ)),
        Int.toNat_natCast]

theorem process_generation_spec_witness :
    (gInit.processes.get ⟨0, by decide⟩).allocated_resources ResourceType.CPU = 0 :=
  (process_generation_spec 1 processTemplates zeroVary le_rfl (List.Perm.refl _)
    validVary_zero (gInit.processes.get ⟨0, by decide⟩)
    (List.get_mem gInit.processes 0 (by decide))).1 ResourceType.CPU

/-- **C10.**  At the public interface (i.e. on reachable states), calling
`allocate_resource(pid, kind, 0)` on an existing, non-Finished process always
succeeds: the pool's `allocate` test `0 ≤ available` cannot fail, no process
can become satisfied by it (reachable unfinished processes are never already
satisfied), so the whole call returns `true` and changes nothing but the move
counter (incremented by one) and the log (one appended allocation entry) —
every pool availability and every process record is exactly unchanged. -/
theorem allocate_zero_amount (g : GameState) (h : Reachable g) (pid : String)
    (rt : ResourceType) (p : Process)
    (hfind : g.processes.find? (fun q => q.id == pid) = some p)
    (hnf : p.state ≠ ProcessState.FINISHED) :
    g.allocate_resource pid rt 0 =
      ({ g with
          moves := g.moves + 1,
          game_log := g.game_log ++ [allocMsg 0 rt pid] }, true) := by
  have hmem : p ∈ g.processes := List.mem_of_find?_eq_some hfind
  have hsatp : p.is_satisfied = false := (reachable_engineInv h).2.1 p hmem hnf
  have hbump : allocBump p rt 0 = p := by
    unfold allocBump
    cases p with
    | mk id name req alloc st =>
      simp only [Process.mk.injEq, and_true, true_and]
      funext r
      by_cases hr : r = rt
      · rw [if_pos hr, Nat.add_zero]
      · rw [if_neg hr]
  have hsat : (allocBump p rt 0).is_satisfied = false := by rw [hbump]; exact hsatp
  rw [alloc_success_unsat hfind hnf (Nat.zero_le _) hsat]
  obtain ⟨l1, l2, e1, _, _, e2⟩ := find?_updateFirst hfind (fun _ => allocBump p rt 0)
  have hproc : updateFirst g.processes pid (fun _ => allocBump p rt 0) = g.processes := by
    rw [e2, hbump, ← e1]
  have hres : (fun r =>
      if r = rt then
        { g.resources rt with available := (g.resources rt).available - 0 }
      else g.resources r) = g.resources := by
    funext r
    by_cases hr : r = rt
    · subst hr
      rw [if_pos rfl]
      rfl
    · rw [if_neg hr]
  rw [hproc, hres]

theorem allocate_zero_amount_witness :
    gInit.allocate_resource "P1" ResourceType.CPU 0 =
      ({ gInit with
          moves := gInit.moves + 1,
          game_log := gInit.game_log ++ [allocMsg 0 ResourceType.CPU "P1"] }, true) :=
  allocate_zero_amount gInit reachable_gInit "P1" ResourceType.CPU
    (gInit.processes.get ⟨0, by decide⟩) rfl (by decide)
